import Mathlib

/-!
Shallow embedding of the blackjack turn engine
(`src/blackjack/controllers/game_controller.py` and
`src/blackjack/classes/player.py`). Monetary amounts are modelled as
rationals. The `Hand` card/total model lives in `blackjack/models/hand.py`,
which is not part of the provided sources; its operations are modelled from
the spec (section 3, "Hand") and are marked `Modelled from the spec:` below.
-/

/-- A dealt card: rank name plus numeric value. An Ace carries value 1
(the low value); `possible_totals` below adds 10 for a soft total. -/
structure Card where
  name : String
  value : Nat
deriving Repr, DecidableEq

/-- Modelled from the spec: `Card.is_ace` from `blackjack/models/hand.py`
(missing from src); `classes/player.py` tests `card.name == 'Ace'`. -/
def Card.is_ace (c : Card) : Bool := c.name = "Ace"

/-- Hand status strings used by `game_controller.py`. -/
inductive HandStatus where
  | Pending
  | Playing
  | Stood
  | Doubled
  | Busted
  | Blackjack
deriving Repr, DecidableEq

/-- A hand: ordered cards, wager, insurance amount, status
(`blackjack/models/hand.py`, fields per spec section 3). -/
structure Hand where
  cards : List Card
  wager : ℚ
  insurance : ℚ
  status : HandStatus
deriving Repr, DecidableEq

/-- Modelled from the spec: the low total of `possible_totals` — every Ace
counted as 1 (card values store the low value). -/
def Hand.lowTotal (h : Hand) : Nat := (h.cards.map Card.value).sum

/-- Whether the hand holds at least one Ace. -/
def Hand.hasAce (h : Hand) : Bool := h.cards.any Card.is_ace

/-- Modelled from the spec: the high total of `possible_totals` — reported
only if at least one Ace is present and adding 10 does not bust. -/
def Hand.highTotal (h : Hand) : Option Nat :=
  if h.hasAce ∧ h.lowTotal + 10 ≤ 21 then some (h.lowTotal + 10) else none

/-- Modelled from the spec: `final_total` is the higher of low/high that is
still ≤ 21 (the high total, when present, else the low total). -/
def Hand.final_total (h : Hand) : Nat := h.highTotal.getD h.lowTotal

/-- Modelled from the spec: a hand is soft when the high total is in play. -/
def Hand.is_soft (h : Hand) : Bool := h.highTotal.isSome

/-- Modelled from the spec: busted means low total strictly above 21. -/
def Hand.is_busted (h : Hand) : Bool := 21 < h.lowTotal

/-- Modelled from the spec: the hand's total is exactly 21. -/
def Hand.is_21 (h : Hand) : Bool := h.final_total = 21

/-- Modelled from the spec: blackjack is a 2-card hand totalling 21
(Ace + 10-value card). -/
def Hand.is_blackjack (h : Hand) : Bool :=
  h.cards.length = 2 ∧ h.final_total = 21

/-- Modelled from the spec: doubling is offered only on a 2-card hand. -/
def Hand.is_doubleable (h : Hand) : Bool := h.cards.length = 2

/-- Modelled from the spec: splitting is offered only on a 2-card hand whose
cards have equal rank-value. -/
def Hand.is_splittable (h : Hand) : Bool :=
  match h.cards with
  | [c1, c2] => c1.value = c2.value
  | _ => false

/-- Append a dealt card to a hand (`hit_hand` appends the shoe card). -/
def Hand.add_card (h : Hand) (c : Card) : Hand :=
  { h with cards := h.cards ++ [c] }

/-- Gambler state: bankroll, auto-wager and the ordered list of hands
(`classes/player.py`, `Gambler`). -/
structure Gambler where
  bankroll : ℚ
  auto_wager : ℚ
  hands : List Hand
deriving Repr, DecidableEq

/-- `Gambler._add_bankroll` / `Gambler.payout`: credit the bankroll. -/
def Gambler.payout (g : Gambler) (amount : ℚ) : Gambler :=
  { g with bankroll := g.bankroll + amount }

/-- `Gambler._subtract_bankroll` (`classes/player.py` lines 52-55): raises
`InsufficientBankrollError` (here `none`) when `bankroll < amount`, else
subtracts the amount. -/
def Gambler.subtract_bankroll (g : Gambler) (amount : ℚ) : Option Gambler :=
  if g.bankroll < amount then none
  else some { g with bankroll := g.bankroll - amount }

/-- `Gambler.set_new_auto_wager` (`classes/player.py` lines 70-74): rejects
an auto-wager above the bankroll; otherwise records it. The bankroll itself
is not touched. -/
def Gambler.set_new_auto_wager (g : Gambler) (w : ℚ) : Option Gambler :=
  if g.bankroll < w then none
  else some { g with auto_wager := w }

/-- Modelled from the spec: `Gambler.can_place_wager` from
`blackjack/models/player.py` (missing from src) — a pure affordability
check, the bankroll covers the amount. -/
def Gambler.can_place_wager (g : Gambler) (amount : ℚ) : Bool :=
  amount ≤ g.bankroll

/-- Modelled from the spec: `Gambler.can_place_insurance_wager` from
`blackjack/models/player.py` (missing from src) — the bankroll covers half
the first hand's wager. -/
def Gambler.can_place_insurance_wager (g : Gambler) : Bool :=
  match g.hands with
  | [] => false
  | h :: _ => h.wager / 2 ≤ g.bankroll

/-- Modelled from the spec: `Gambler.place_hand_wager` from
`blackjack/models/player.py` (missing from src) — subtract the amount from
the bankroll (failing without mutation on insufficient funds) and add it to
the hand's wager. Used by doubling and splitting. -/
def Gambler.place_hand_wager (g : Gambler) (amount : ℚ) (h : Hand) :
    Option (Gambler × Hand) :=
  (g.subtract_bankroll amount).map
    (fun g2 => (g2, { h with wager := h.wager + amount }))

/-- `Gambler.buy_insurance_for_first_hand` (`classes/player.py` lines
57-65): the insurance amount is half the first hand's wager; subtract it
from the bankroll (propagating the error) and record it on the hand. -/
def Gambler.buy_insurance_for_first_hand (g : Gambler) : Option Gambler :=
  match g.hands with
  | [] => none
  | h :: rest =>
    (g.subtract_bankroll (h.wager / 2)).map
      (fun g2 => { g2 with hands := { h with insurance := h.wager / 2 } :: rest })

/-- Odds `N:D` as parsed by `perform_hand_payout` from strings like
`'3:2'` (`map(int, odds.split(':'))`). -/
structure Odds where
  antecedent : Nat
  consequent : Nat
deriving Repr, DecidableEq

/-- The four primitive payout kinds of `perform_hand_payout`. -/
inductive PayoutKind where
  | winning_wager
  | wager_reclaim
  | winning_insurance
  | insurance_reclaim
deriving Repr, DecidableEq

/-- `perform_hand_payout` (`game_controller.py` lines 383-411): the amount
credited to the gambler's bankroll for one primitive payout. -/
def perform_hand_payout (h : Hand) : PayoutKind → Odds → ℚ
  | .winning_wager, o => h.wager * o.antecedent / o.consequent
  | .wager_reclaim, _ => h.wager
  | .winning_insurance, o => h.insurance * o.antecedent / o.consequent
  | .insurance_reclaim, _ => h.insurance

/-- The composite payout policies accepted by `pay_out_hand`. -/
inductive PayoutPolicy where
  | wager
  | blackjack
  | insurance
  | push
deriving Repr, DecidableEq

/-- `pay_out_hand` (`game_controller.py` lines 358-381): total amount
credited for a composite payout policy. -/
def pay_out_hand (h : Hand) : PayoutPolicy → ℚ
  | .wager =>
    perform_hand_payout h .winning_wager ⟨1, 1⟩ +
      perform_hand_payout h .wager_reclaim ⟨1, 1⟩
  | .blackjack =>
    perform_hand_payout h .winning_wager ⟨3, 2⟩ +
      perform_hand_payout h .wager_reclaim ⟨1, 1⟩
  | .insurance =>
    perform_hand_payout h .winning_insurance ⟨2, 1⟩ +
      perform_hand_payout h .insurance_reclaim ⟨1, 1⟩
  | .push => perform_hand_payout h .wager_reclaim ⟨1, 1⟩

/-- C3: every payout credits the bankroll by exactly its formula:
`winning_wager` at N:D credits `wager * N / D`, `wager_reclaim` credits the
wager, `winning_insurance` at 2:1 credits `insurance * 2`,
`insurance_reclaim` credits the insurance; the composite `wager` policy
credits `2 * wager`, `blackjack` credits `5/2 * wager` (a $10-wager
blackjack credits $25), `insurance` credits `3 * insurance`, `push` credits
exactly the wager, and a loss credits nothing (no payout call is made). -/
theorem payout_formulas :
    (∀ (h : Hand) (n d : Nat),
      perform_hand_payout h .winning_wager ⟨n, d⟩ = h.wager * n / d) ∧
    (∀ (h : Hand) (o : Odds), perform_hand_payout h .wager_reclaim o = h.wager) ∧
    (∀ h : Hand,
      perform_hand_payout h .winning_insurance ⟨2, 1⟩ = h.insurance * 2) ∧
    (∀ (h : Hand) (o : Odds),
      perform_hand_payout h .insurance_reclaim o = h.insurance) ∧
    (∀ h : Hand, pay_out_hand h .wager = 2 * h.wager) ∧
    (∀ h : Hand, pay_out_hand h .blackjack = 5 / 2 * h.wager) ∧
    (∀ h : Hand, pay_out_hand h .insurance = 3 * h.insurance) ∧
    (∀ h : Hand, pay_out_hand h .push = h.wager) ∧
    pay_out_hand ⟨[], 10, 0, .Pending⟩ .blackjack = 25 := by
  refine ⟨fun h n d => rfl, fun h o => rfl, fun h => ?_, fun h o => rfl,
    fun h => ?_, fun h => ?_, fun h => ?_, fun h => rfl, by norm_num [pay_out_hand, perform_hand_payout]⟩
  · simp [perform_hand_payout]
  · simp [pay_out_hand, perform_hand_payout]; ring
  · simp [pay_out_hand, perform_hand_payout]; ring
  · simp [pay_out_hand, perform_hand_payout]; ring

/-- `settle_hand` (`game_controller.py` lines 413-441): the amount credited
to the gambler for one hand, settled against the dealer's hand. A busted
gambler hand is a loss (nothing credited); otherwise a busted dealer hand
is a win; otherwise final totals are compared. -/
def settle_hand (dealer_hand : Hand) (h : Hand) : ℚ :=
  if h.status = .Busted then 0
  else if dealer_hand.status = .Busted then pay_out_hand h .wager
  else if dealer_hand.final_total < h.final_total then pay_out_hand h .wager
  else if h.final_total = dealer_hand.final_total then pay_out_hand h .push
  else 0

/-- `settle_up` (`game_controller.py` lines 443-447): settle each of the
gambler's hands against the dealer's hand, in list order. -/
def settle_up (g : Gambler) (dealer_hand : Hand) : Gambler :=
  g.hands.foldl (fun acc h => acc.payout (settle_hand dealer_hand h)) g

theorem pay_out_hand_wager_eq (h : Hand) : pay_out_hand h .wager = 2 * h.wager := by
  simp [pay_out_hand, perform_hand_payout]; ring

theorem pay_out_hand_blackjack_eq (h : Hand) :
    pay_out_hand h .blackjack = 5 / 2 * h.wager := by
  simp [pay_out_hand, perform_hand_payout]; ring

theorem pay_out_hand_insurance_eq (h : Hand) :
    pay_out_hand h .insurance = 3 * h.insurance := by
  simp [pay_out_hand, perform_hand_payout]; ring

theorem pay_out_hand_push_eq (h : Hand) : pay_out_hand h .push = h.wager := rfl

theorem foldl_payout_bankroll (f : Hand → ℚ) :
    ∀ (hands : List Hand) (g : Gambler),
      (hands.foldl (fun acc h => acc.payout (f h)) g).bankroll =
        g.bankroll + (hands.map f).sum := by
  intro hands
  induction hands with
  | nil => intro g; simp
  | cons h t ih =>
    intro g
    rw [List.foldl_cons, ih, List.map_cons, List.sum_cons]
    simp [Gambler.payout]; ring

theorem foldl_payout_hands (f : Hand → ℚ) :
    ∀ (hands : List Hand) (g : Gambler),
      (hands.foldl (fun acc h => acc.payout (f h)) g).hands = g.hands := by
  intro hands
  induction hands with
  | nil => intro g; simp
  | cons h t ih =>
    intro g
    rw [List.foldl_cons, ih]
    rfl

/-- C1: settlement of a non-pre-turn gambler hand follows exactly this
decision order: a `Busted` gambler hand is a loss (no credit) regardless of
the dealer; otherwise a `Busted` dealer hand is a win with the `wager`
payout (`2 * wager`); otherwise a strictly greater gambler final total wins
(`2 * wager`), an equal total is a push (`wager` reclaimed), and a lesser
total is a loss (no credit). `settle_up` applies this to every hand of the
gambler's list in order, crediting the bankroll by the accumulated sum and
touching nothing else. -/
theorem settlement_decision_order :
    (∀ d h : Hand,
      settle_hand d h =
        if h.status = .Busted then 0
        else if d.status = .Busted then 2 * h.wager
        else if d.final_total < h.final_total then 2 * h.wager
        else if h.final_total = d.final_total then h.wager
        else 0) ∧
    (∀ (g : Gambler) (d : Hand),
      (settle_up g d).hands = g.hands ∧
      (settle_up g d).auto_wager = g.auto_wager ∧
      (settle_up g d).bankroll =
        g.bankroll + (g.hands.map (settle_hand d)).sum) := by
  constructor
  · intro d h
    simp only [settle_hand, pay_out_hand_wager_eq, pay_out_hand_push_eq]
  · intro g d
    refine ⟨foldl_payout_hands _ g.hands g, ?_, foldl_payout_bankroll _ g.hands g⟩
    have : ∀ (hands : List Hand) (g0 : Gambler),
        (hands.foldl (fun acc h => acc.payout (settle_hand d h)) g0).auto_wager =
          g0.auto_wager := by
      intro hands
      induction hands with
      | nil => intro g0; simp
      | cons h t ih =>
        intro g0
        rw [List.foldl_cons, ih]
        rfl
    exact this g.hands g

/-- C4 counterexample: setting an auto-wager that the bankroll covers
succeeds but does NOT subtract the amount from the bankroll — with bankroll
$10, `set_new_auto_wager 5` leaves the bankroll at $10, not at $10 − $5 as
the claim's "otherwise it subtracts exactly the amount" would require. -/
theorem set_new_auto_wager_subtracts_nothing :
    (⟨10, 0, []⟩ : Gambler).set_new_auto_wager 5 = some ⟨10, 5, []⟩ ∧
    (10 : ℚ) ≠ 10 - 5 := by
  constructor
  · rfl
  · norm_num

/-- C4 amended: every bankroll-subtracting operation (wager placement,
double and split via `place_hand_wager`, insurance purchase) goes through
`_subtract_bankroll`: an amount exceeding the bankroll raises
`InsufficientBankrollError` (modelled as `none`) with all state unchanged,
and otherwise exactly the amount is subtracted, so a covered subtraction
never leaves the bankroll negative; setting an auto-wager likewise rejects
an amount exceeding the bankroll but on success only records the
auto-wager, leaving the bankroll untouched (the subtraction happens later,
at wager-placement time). -/
theorem bankroll_never_negative (g : Gambler) (h : Hand) (amount : ℚ)
    (hle : amount ≤ g.bankroll) :
    g.subtract_bankroll amount = some { g with bankroll := g.bankroll - amount } ∧
    0 ≤ g.bankroll - amount ∧
    g.set_new_auto_wager amount = some { g with auto_wager := amount } ∧
    g.place_hand_wager amount h =
      some ({ g with bankroll := g.bankroll - amount },
            { h with wager := h.wager + amount }) ∧
    (∀ a2 : ℚ, g.bankroll < a2 →
      g.subtract_bankroll a2 = none ∧ g.set_new_auto_wager a2 = none ∧
        g.place_hand_wager a2 h = none) ∧
    (∀ g2 : Gambler, g.buy_insurance_for_first_hand = some g2 →
      0 ≤ g2.bankroll) := by
  have hnl : ¬ g.bankroll < amount := not_lt.2 hle
  refine ⟨?_, ?_, ?_, ?_, ?_, ?_⟩
  · simp [Gambler.subtract_bankroll, hnl]
  · linarith
  · simp [Gambler.set_new_auto_wager, hnl]
  · simp [Gambler.place_hand_wager, Gambler.subtract_bankroll, hnl]
  · intro a2 ha2
    refine ⟨?_, ?_, ?_⟩ <;>
      simp [Gambler.subtract_bankroll, Gambler.set_new_auto_wager,
        Gambler.place_hand_wager, ha2]
  · intro g2 hg2
    rcases g with ⟨b, aw, hands⟩
    cases hands with
    | nil => simp [Gambler.buy_insurance_for_first_hand] at hg2
    | cons h0 rest =>
      simp only [Gambler.buy_insurance_for_first_hand,
        Gambler.subtract_bankroll] at hg2
      by_cases hc : b < h0.wager / 2
      · simp [hc] at hg2
      · simp only [hc, if_false, Option.map_some', Option.some.injEq] at hg2
        subst hg2
        show (0 : ℚ) ≤ b - h0.wager / 2
        linarith [not_lt.1 hc]

/-- C4 witness: the amended theorem applied at bankroll $10, subtracting $4. -/
theorem bankroll_never_negative_witness :
    (⟨10, 0, []⟩ : Gambler).subtract_bankroll 4 =
      some { (⟨10, 0, []⟩ : Gambler) with bankroll := (10 : ℚ) - 4 } ∧
    0 ≤ (10 : ℚ) - 4 ∧
    (⟨10, 0, []⟩ : Gambler).set_new_auto_wager 4 =
      some { (⟨10, 0, []⟩ : Gambler) with auto_wager := (4 : ℚ) } ∧
    (⟨10, 0, []⟩ : Gambler).place_hand_wager 4 ⟨[], 0, 0, .Pending⟩ =
      some ({ (⟨10, 0, []⟩ : Gambler) with bankroll := (10 : ℚ) - 4 },
            { (⟨[], 0, 0, .Pending⟩ : Hand) with wager := (0 : ℚ) + 4 }) ∧
    (∀ a2 : ℚ, (10 : ℚ) < a2 →
      (⟨10, 0, []⟩ : Gambler).subtract_bankroll a2 = none ∧
        (⟨10, 0, []⟩ : Gambler).set_new_auto_wager a2 = none ∧
        (⟨10, 0, []⟩ : Gambler).place_hand_wager a2 ⟨[], 0, 0, .Pending⟩ = none) ∧
    (∀ g2 : Gambler,
      (⟨10, 0, []⟩ : Gambler).buy_insurance_for_first_hand = some g2 →
        0 ≤ g2.bankroll) :=
  bankroll_never_negative ⟨10, 0, []⟩ ⟨[], 0, 0, .Pending⟩ 4 (by norm_num)

/-- The four gambler actions of `get_gambler_hand_action`. -/
inductive GamblerAction where
  | Hit
  | Stand
  | Double
  | Split
deriving Repr, DecidableEq

/-- `play_gambler_hand` lines 141-147: after a Hit, Stand or Double, a hand
at exactly 21 becomes `Stood` and a busted hand becomes `Busted`, whatever
status the action branch just assigned. -/
def finish_check (h : Hand) : Hand :=
  if h.is_21 then { h with status := .Stood }
  else if h.is_busted then { h with status := .Busted }
  else h

theorem finish_check_spec (h : Hand) :
    finish_check h =
      { h with status :=
          if h.is_21 then .Stood
          else if h.is_busted then .Busted
          else h.status } := by
  unfold finish_check
  split_ifs <;> rfl

theorem busted_not_21 (h : Hand) (hb : h.is_busted = true) :
    h.is_21 = false := by
  simp only [Hand.is_busted, decide_eq_true_eq] at hb
  simp only [Hand.is_21, Hand.final_total, Hand.highTotal, decide_eq_false_iff_not]
  rw [if_neg]
  · simp only [Option.getD_none]; omega
  · rintro ⟨-, hle⟩; omega

/-- `get_gambler_hand_action` lines 158-159: Double is offered iff the hand
is doubleable and the gambler can cover another wager of the same size. -/
def double_offered (g : Gambler) (h : Hand) : Bool :=
  h.is_doubleable && g.can_place_wager h.wager

/-- `get_gambler_hand_action` lines 162-163: Split is offered iff the hand
is splittable and the gambler can cover a wager of the same size. -/
def split_offered (g : Gambler) (h : Hand) : Bool :=
  h.is_splittable && g.can_place_wager h.wager

/-- One iteration of the action branch of `play_gambler_hand` (lines
120-147): apply the chosen action to the hand, returning the updated
gambler, the played hand, an optional newly spawned split hand, and the
remaining shoe. `none` models an exhausted shoe or an
`InsufficientBankrollError`, both of which abort the step. -/
def apply_gambler_action (g : Gambler) (h : Hand) (shoe : List Card) :
    GamblerAction → Option (Gambler × Hand × Option Hand × List Card)
  | .Hit =>
    match shoe with
    | [] => none
    | c :: rest => some (g, finish_check (h.add_card c), none, rest)
  | .Stand => some (g, finish_check { h with status := .Stood }, none, shoe)
  | .Double =>
    match shoe with
    | [] => none
    | c :: rest =>
      (g.place_hand_wager h.wager h).map
        (fun gh =>
          (gh.1, finish_check { gh.2.add_card c with status := .Doubled },
           none, rest))
  | .Split =>
    match h.cards with
    | [c1, c2] =>
      (g.place_hand_wager h.wager ⟨[c2], 0, 0, .Pending⟩).map
        (fun gh => (gh.1, { h with cards := [c1] }, some gh.2, shoe))
    | _ => none

/-- C2 counterexample: doubling a Playing 16 (Ten + Six, wager $5, bankroll
$10) that draws a King busts the hand, and the code's post-action check
(lines 141-147) then sets the status to `Busted`, not `Doubled` — refuting
"the hand then resolves to status Doubled regardless of the resulting
total". -/
theorem double_bust_status_is_busted :
    apply_gambler_action ⟨10, 0, []⟩
        ⟨[⟨"Ten", 10⟩, ⟨"Six", 6⟩], 5, 0, .Playing⟩ [⟨"King", 10⟩] .Double =
      some (⟨10 - 5, 0, []⟩,
            ⟨[⟨"Ten", 10⟩, ⟨"Six", 6⟩, ⟨"King", 10⟩], 5 + 5, 0, .Busted⟩,
            none, []) ∧
    HandStatus.Busted ≠ HandStatus.Doubled := by
  constructor
  · rfl
  · decide

theorem finish_check_wager (h : Hand) : (finish_check h).wager = h.wager := by
  unfold finish_check; split_ifs <;> rfl

theorem finish_check_cards (h : Hand) : (finish_check h).cards = h.cards := by
  unfold finish_check; split_ifs <;> rfl

theorem finish_check_status (h : Hand) :
    (finish_check h).status =
      (if h.is_21 = true then HandStatus.Stood
       else if h.is_busted = true then HandStatus.Busted
       else h.status) := by
  unfold finish_check; split_ifs <;> rfl

/-- The hand produced by the Double branch of `play_gambler_hand`: wager
placed again, one card drawn, status set to `Doubled`, then the lines
141-147 check applied. -/
def doubled_hand (h : Hand) (c : Card) : Hand :=
  finish_check
    { h with cards := h.cards ++ [c], wager := h.wager + h.wager,
             status := .Doubled }

/-- C2 amended: taking Double on a hand the gambler can cover exactly
doubles the wager and draws exactly one card; the hand then resolves to
`Stood` if the drawn card makes the total exactly 21, to `Busted` if it
busts the hand, and to `Doubled` otherwise; a doubled hand that busted is
still settled as a loss (its status being `Busted`, not `Doubled`). -/
theorem double_resolution (g : Gambler) (h : Hand) (c : Card)
    (rest : List Card) (hw : h.wager ≤ g.bankroll) :
    apply_gambler_action g h (c :: rest) .Double =
      some ({ g with bankroll := g.bankroll - h.wager },
            doubled_hand h c, none, rest) ∧
    (doubled_hand h c).wager = 2 * h.wager ∧
    (doubled_hand h c).cards = h.cards ++ [c] ∧
    (doubled_hand h c).status =
      (if (h.add_card c).is_21 = true then HandStatus.Stood
       else if (h.add_card c).is_busted = true then HandStatus.Busted
       else HandStatus.Doubled) ∧
    (∀ d : Hand, (h.add_card c).is_busted = true →
      settle_hand d (doubled_hand h c) = 0) := by
  have hnl : ¬ g.bankroll < h.wager := not_lt.2 hw
  have e21 : ({ h with cards := h.cards ++ [c], wager := h.wager + h.wager, status := HandStatus.Doubled } : Hand).is_21 = (h.add_card c).is_21 := rfl
  have ebu : ({ h with cards := h.cards ++ [c], wager := h.wager + h.wager, status := HandStatus.Doubled } : Hand).is_busted = (h.add_card c).is_busted := rfl
  have hst : ∀ hb : (h.add_card c).is_busted = true,
      (doubled_hand h c).status = HandStatus.Busted := by
    intro hb
    unfold doubled_hand
    rw [finish_check_status, e21, ebu, busted_not_21 _ hb, hb]
    simp
  refine ⟨?_, ?_, ?_, ?_, ?_⟩
  · simp [apply_gambler_action, doubled_hand, Gambler.place_hand_wager,
      Gambler.subtract_bankroll, hnl, Hand.add_card]
  · unfold doubled_hand
    rw [finish_check_wager]
    show h.wager + h.wager = 2 * h.wager
    ring
  · unfold doubled_hand
    rw [finish_check_cards]
  · unfold doubled_hand
    rw [finish_check_status, e21, ebu]
  · intro d hb
    simp [settle_hand, hst hb]

/-- C2 witness: the amended theorem at a Playing Five + Six (wager $5,
bankroll $10) doubling into a Seven — wager $10, one card drawn, total 18,
status `Doubled`. -/
theorem double_resolution_witness :
    apply_gambler_action ⟨10, 0, []⟩ ⟨[⟨"Five", 5⟩, ⟨"Six", 6⟩], 5, 0, .Playing⟩
        [⟨"Seven", 7⟩] .Double =
      some ({ (⟨10, 0, []⟩ : Gambler) with bankroll := (10 : ℚ) - 5 },
            doubled_hand ⟨[⟨"Five", 5⟩, ⟨"Six", 6⟩], 5, 0, .Playing⟩ ⟨"Seven", 7⟩,
            none, []) ∧
    (doubled_hand ⟨[⟨"Five", 5⟩, ⟨"Six", 6⟩], 5, 0, .Playing⟩ ⟨"Seven", 7⟩).wager =
      2 * 5 ∧
    (doubled_hand ⟨[⟨"Five", 5⟩, ⟨"Six", 6⟩], 5, 0, .Playing⟩ ⟨"Seven", 7⟩).cards =
      [⟨"Five", 5⟩, ⟨"Six", 6⟩] ++ [⟨"Seven", 7⟩] ∧
    (doubled_hand ⟨[⟨"Five", 5⟩, ⟨"Six", 6⟩], 5, 0, .Playing⟩ ⟨"Seven", 7⟩).status =
      (if (Hand.add_card ⟨[⟨"Five", 5⟩, ⟨"Six", 6⟩], 5, 0, .Playing⟩ ⟨"Seven", 7⟩).is_21 = true
       then HandStatus.Stood
       else if (Hand.add_card ⟨[⟨"Five", 5⟩, ⟨"Six", 6⟩], 5, 0, .Playing⟩ ⟨"Seven", 7⟩).is_busted = true
       then HandStatus.Busted
       else HandStatus.Doubled) ∧
    (∀ d : Hand,
      (Hand.add_card ⟨[⟨"Five", 5⟩, ⟨"Six", 6⟩], 5, 0, .Playing⟩ ⟨"Seven", 7⟩).is_busted = true →
      settle_hand d
        (doubled_hand ⟨[⟨"Five", 5⟩, ⟨"Six", 6⟩], 5, 0, .Playing⟩ ⟨"Seven", 7⟩) = 0) :=
  double_resolution ⟨10, 0, []⟩ ⟨[⟨"Five", 5⟩, ⟨"Six", 6⟩], 5, 0, .Playing⟩
    ⟨"Seven", 7⟩ [] (by norm_num)

/-- C6: Split is offered exactly on a 2-card hand of equal rank-value that
the gambler can cover with a second wager of the same size; performing it
moves the second card into a new hand carrying the same wager, so the two
wagers sum to twice the original and the bankroll drops by exactly one
wager; the original hand keeps its status and the new hand starts
`Pending`, so both must still be played. -/
theorem split_rules (g : Gambler) (h : Hand) (c1 c2 : Card)
    (shoe : List Card) (hc : h.cards = [c1, c2]) (hv : c1.value = c2.value)
    (hw : h.wager ≤ g.bankroll) :
    (∀ (g0 : Gambler) (h0 : Hand),
      split_offered g0 h0 = true ↔
        ((∃ d1 d2 : Card, h0.cards = [d1, d2] ∧ d1.value = d2.value) ∧
          h0.wager ≤ g0.bankroll)) ∧
    split_offered g h = true ∧
    apply_gambler_action g h shoe .Split =
      some ({ g with bankroll := g.bankroll - h.wager },
            { h with cards := [c1] },
            some ⟨[c2], 0 + h.wager, 0, .Pending⟩, shoe) ∧
    ({ h with cards := [c1] } : Hand).wager + (0 + h.wager) = 2 * h.wager ∧
    ({ h with cards := [c1] } : Hand).status = h.status := by
  have hnl : ¬ g.bankroll < h.wager := not_lt.2 hw
  refine ⟨?_, ?_, ?_, ?_, rfl⟩
  · intro g0 h0
    unfold split_offered Hand.is_splittable Gambler.can_place_wager
    rcases hh : h0.cards with - | ⟨d1, - | ⟨d2, - | ⟨d3, t⟩⟩⟩ <;>
      simp [Bool.and_eq_true, decide_eq_true_eq]
    intro hwb
    exact ⟨fun hv12 => ⟨d1, d2, ⟨rfl, rfl⟩, hv12⟩,
      fun hex => by
        obtain ⟨e1, e2, ⟨he1, he2⟩, hve⟩ := hex
        rw [he1, he2]
        exact hve⟩
  · unfold split_offered Hand.is_splittable Gambler.can_place_wager
    rw [hc]
    simp [hv, hw]
  · unfold apply_gambler_action
    rw [hc]
    simp [Gambler.place_hand_wager, Gambler.subtract_bankroll, hnl]
  · show h.wager + (0 + h.wager) = 2 * h.wager
    ring

/-- C6 witness: the spec's example — a pair of Eights, wager $20, bankroll
$80 at decision time: split is offered, both hands end wagered $20, and the
bankroll drops to $60. -/
theorem split_rules_witness :
    (∀ (g0 : Gambler) (h0 : Hand),
      split_offered g0 h0 = true ↔
        ((∃ d1 d2 : Card, h0.cards = [d1, d2] ∧ d1.value = d2.value) ∧
          h0.wager ≤ g0.bankroll)) ∧
    split_offered ⟨80, 0, []⟩ ⟨[⟨"Eight", 8⟩, ⟨"Eight", 8⟩], 20, 0, .Playing⟩ = true ∧
    apply_gambler_action ⟨80, 0, []⟩ ⟨[⟨"Eight", 8⟩, ⟨"Eight", 8⟩], 20, 0, .Playing⟩
        [] .Split =
      some ({ (⟨80, 0, []⟩ : Gambler) with bankroll := (80 : ℚ) - 20 },
            { (⟨[⟨"Eight", 8⟩, ⟨"Eight", 8⟩], 20, 0, .Playing⟩ : Hand) with
                cards := [⟨"Eight", 8⟩] },
            some ⟨[⟨"Eight", 8⟩], 0 + 20, 0, .Pending⟩, []) ∧
    ({ (⟨[⟨"Eight", 8⟩, ⟨"Eight", 8⟩], 20, 0, .Playing⟩ : Hand) with
        cards := [⟨"Eight", 8⟩] } : Hand).wager + ((0 : ℚ) + 20) = 2 * 20 ∧
    ({ (⟨[⟨"Eight", 8⟩, ⟨"Eight", 8⟩], 20, 0, .Playing⟩ : Hand) with
        cards := [⟨"Eight", 8⟩] } : Hand).status = HandStatus.Playing :=
  split_rules ⟨80, 0, []⟩ ⟨[⟨"Eight", 8⟩, ⟨"Eight", 8⟩], 20, 0, .Playing⟩
    ⟨"Eight", 8⟩ ⟨"Eight", 8⟩ [] rfl rfl (by norm_num)

/-- `play_gambler_hand` lines 101-115: the automatic second card for a
split-derived one-card hand. `Sum.inl` means the hand finished without any
gambler action (the split-Aces rule, or a stuck state on an empty shoe);
`Sum.inr` hands control back to the action loop. -/
def split_auto_hit (h : Hand) (shoe : List Card) :
    (Hand × List Card) ⊕ (Hand × List Card) :=
  match h.cards, shoe with
  | [c0], c :: rest =>
    if c0.is_ace then
      (if (h.add_card c).is_blackjack then
        Sum.inl ({ h.add_card c with status := .Blackjack }, rest)
       else Sum.inl ({ h.add_card c with status := .Stood }, rest))
    else Sum.inr (h.add_card c, rest)
  | [_], [] => Sum.inl (h, [])
  | _, _ => Sum.inr (h, shoe)

/-- The `while hand.status == 'Playing'` loop of `play_gambler_hand`
(lines 101-150), driven by the gambler's chosen actions in order. Returns
the updated gambler, the played hand, the hands spawned by splits (in
creation order, each still to be played by `play_gambler_turn`), and the
remaining shoe. An exhausted action list, exhausted shoe or failed wager
placement stops the loop. -/
def play_gambler_hand_loop :
    List GamblerAction → Gambler → Hand → List Card →
      Gambler × Hand × List Hand × List Card
  | [], g, h, shoe =>
    (match split_auto_hit h shoe with
     | Sum.inl (h2, rest) => (g, h2, [], rest)
     | Sum.inr (h2, rest) => (g, h2, [], rest))
  | a :: more, g, h, shoe =>
    match split_auto_hit h shoe with
    | Sum.inl (h2, rest) => (g, h2, [], rest)
    | Sum.inr (h2, rest) =>
      match apply_gambler_action g h2 rest a with
      | none => (g, h2, [], rest)
      | some (g2, h3, some newh, rest2) =>
        (match play_gambler_hand_loop more g2 h3 rest2 with
         | (g4, h4, spawned, shoe4) => (g4, h4, newh :: spawned, shoe4))
      | some (g2, h3, none, rest2) =>
        if h3.status = .Playing then play_gambler_hand_loop more g2 h3 rest2
        else (g2, h3, [], rest2)

/-- `play_gambler_hand` entry (line 96): the hand is set to `Playing`
before the loop starts. -/
def play_gambler_hand (g : Gambler) (h : Hand) (shoe : List Card)
    (acts : List GamblerAction) : Gambler × Hand × List Hand × List Card :=
  play_gambler_hand_loop acts g { h with status := .Playing } shoe

/-- C7: a one-card hand created by splitting Aces draws exactly one card
and resolves immediately — to `Blackjack` if that card brings the total to
21 and to `Stood` otherwise; the gambler is offered no action on it (the
result does not depend on the action list, and the gambler state is
untouched). -/
theorem split_ace_auto_resolves (g : Gambler) (a c : Card) (w ins : ℚ)
    (st : HandStatus) (rest : List Card) (acts : List GamblerAction)
    (ha : a.is_ace = true) :
    play_gambler_hand g ⟨[a], w, ins, st⟩ (c :: rest) acts =
      (g, ⟨[a, c], w, ins,
           if (⟨[a, c], w, ins, .Playing⟩ : Hand).final_total = 21
           then HandStatus.Blackjack else HandStatus.Stood⟩, [], rest) := by
  have e : split_auto_hit ⟨[a], w, ins, HandStatus.Playing⟩ (c :: rest) =
      (if a.is_ace then
        (if (⟨[a, c], w, ins, HandStatus.Playing⟩ : Hand).is_blackjack then
          Sum.inl ((⟨[a, c], w, ins, HandStatus.Blackjack⟩ : Hand), rest)
         else Sum.inl ((⟨[a, c], w, ins, HandStatus.Stood⟩ : Hand), rest))
       else Sum.inr ((⟨[a, c], w, ins, HandStatus.Playing⟩ : Hand), rest)) := rfl
  have hb : (⟨[a, c], w, ins, HandStatus.Playing⟩ : Hand).is_blackjack =
      decide ((⟨[a, c], w, ins, HandStatus.Playing⟩ : Hand).final_total = 21) := by
    simp [Hand.is_blackjack]
  have hauto : split_auto_hit ⟨[a], w, ins, HandStatus.Playing⟩ (c :: rest) =
      Sum.inl ((⟨[a, c], w, ins,
        if (⟨[a, c], w, ins, .Playing⟩ : Hand).final_total = 21
        then HandStatus.Blackjack else HandStatus.Stood⟩ : Hand), rest) := by
    rw [e, hb]
    by_cases h21 : (⟨[a, c], w, ins, HandStatus.Playing⟩ : Hand).final_total = 21 <;>
      simp [ha, h21]
  show play_gambler_hand_loop acts g ⟨[a], w, ins, HandStatus.Playing⟩ (c :: rest) = _
  cases acts with
  | nil =>
    unfold play_gambler_hand_loop
    rw [hauto]
  | cons a2 more =>
    unfold play_gambler_hand_loop
    rw [hauto]

/-- C7 witness: the theorem at a split Ace drawing a King (total 21, so
`Blackjack`). -/
theorem split_ace_auto_resolves_witness :
    play_gambler_hand ⟨50, 0, []⟩ ⟨[⟨"Ace", 1⟩], 10, 0, .Pending⟩
        [⟨"King", 10⟩] [GamblerAction.Hit] =
      (⟨50, 0, []⟩,
       ⟨[⟨"Ace", 1⟩, ⟨"King", 10⟩], 10, 0,
        if (⟨[⟨"Ace", 1⟩, ⟨"King", 10⟩], 10, 0, .Playing⟩ : Hand).final_total = 21
        then HandStatus.Blackjack else HandStatus.Stood⟩, [], []) :=
  split_ace_auto_resolves ⟨50, 0, []⟩ ⟨"Ace", 1⟩ ⟨"King", 10⟩ 10 0 .Pending []
    [GamblerAction.Hit] (by rfl)

/-- `play_dealer_turn` line 215: the dealer hits under 17 and on a soft
17. -/
def dealer_should_hit (h : Hand) : Bool :=
  h.final_total < 17 || (h.final_total == 17 && h.is_soft)

/-- `play_dealer_turn` lines 225-227: a busted hand's status becomes
`Busted`. -/
def dealer_bust_check (h : Hand) : Hand :=
  if h.is_busted then { h with status := .Busted } else h

/-- `play_dealer_turn` lines 220-227: the stand branch — status `Stood`,
followed by the bust check. -/
def dealer_stand (h : Hand) : Hand :=
  dealer_bust_check { h with status := .Stood }

/-- The `while hand.status == 'Playing'` loop of `play_dealer_turn` (lines
209-230): while Playing, hit (drawing from the shoe, then the bust check)
when `dealer_should_hit`, otherwise stand. Stops when the hand leaves
`Playing` or when the shoe runs out mid-hit (an external failure). -/
def play_dealer_loop : Hand → List Card → Hand × List Card
  | h, [] =>
    if h.status = .Playing ∧ ¬ dealer_should_hit h then (dealer_stand h, [])
    else (h, [])
  | h, c :: rest =>
    if h.status = .Playing then
      (if dealer_should_hit h then
        play_dealer_loop (dealer_bust_check (h.add_card c)) rest
       else (dealer_stand h, c :: rest))
    else (h, c :: rest)

/-- `play_dealer_turn` entry (line 204): the dealer's hand is set to
`Playing` before the loop. -/
def play_dealer_turn (h : Hand) (shoe : List Card) : Hand × List Card :=
  play_dealer_loop { h with status := .Playing } shoe

theorem dealer_bust_check_cards (h : Hand) :
    (dealer_bust_check h).cards = h.cards := by
  unfold dealer_bust_check; split_ifs <;> rfl

theorem dealer_bust_check_status (h : Hand) :
    (dealer_bust_check h).status =
      (if 21 < h.lowTotal then HandStatus.Busted else h.status) := by
  unfold dealer_bust_check Hand.is_busted
  split_ifs with h1 h2 <;> first | rfl | omega | skip
  · simp only [decide_eq_true_eq] at h1; omega
  · simp only [decide_eq_true_eq] at h1; omega

theorem dealer_stand_cards (h : Hand) : (dealer_stand h).cards = h.cards := by
  unfold dealer_stand; rw [dealer_bust_check_cards]

theorem final_total_of_cards_eq (h1 h2 : Hand) (e : h1.cards = h2.cards) :
    h1.final_total = h2.final_total := by
  simp [Hand.final_total, Hand.highTotal, Hand.lowTotal, Hand.hasAce, e]

theorem is_soft_of_cards_eq (h1 h2 : Hand) (e : h1.cards = h2.cards) :
    h1.is_soft = h2.is_soft := by
  simp [Hand.is_soft, Hand.highTotal, Hand.lowTotal, Hand.hasAce, e]

theorem lowTotal_of_cards_eq (h1 h2 : Hand) (e : h1.cards = h2.cards) :
    h1.lowTotal = h2.lowTotal := by
  simp [Hand.lowTotal, e]

/-- Invariant of the dealer loop: starting from a `Playing` hand (or a
`Busted` hand whose low total really exceeds 21, as produced by the bust
check), a `Stood` result stands on a total of at least 17 that is not a
soft 17, and a `Busted` result has low total above 21. -/
theorem play_dealer_loop_post (shoe : List Card) :
    ∀ h : Hand,
      (h.status = .Playing ∨ (h.status = .Busted ∧ 21 < h.lowTotal)) →
      ((play_dealer_loop h shoe).1.status = .Stood →
        17 ≤ (play_dealer_loop h shoe).1.final_total ∧
        ¬((play_dealer_loop h shoe).1.final_total = 17 ∧
          (play_dealer_loop h shoe).1.is_soft = true)) ∧
      ((play_dealer_loop h shoe).1.status = .Busted →
        21 < (play_dealer_loop h shoe).1.lowTotal) := by
  induction shoe with
  | nil =>
    intro h hh
    unfold play_dealer_loop
    rcases hh with hp | ⟨hb, hlow⟩
    · by_cases hsh : dealer_should_hit h = true
      · rw [if_neg (by simp [hp, hsh])]
        constructor
        · intro hst; rw [hp] at hst; exact absurd hst (by simp)
        · intro hst; rw [hp] at hst; exact absurd hst (by simp)
      · rw [if_pos ⟨hp, by simp [hsh]⟩]
        have hcards : (dealer_stand h).final_total = h.final_total :=
          final_total_of_cards_eq _ _ (dealer_stand_cards h)
        have hsoft : (dealer_stand h).is_soft = h.is_soft :=
          is_soft_of_cards_eq _ _ (dealer_stand_cards h)
        have hlow2 : (dealer_stand h).lowTotal = h.lowTotal :=
          lowTotal_of_cards_eq _ _ (dealer_stand_cards h)
        have hstat : (dealer_stand h).status =
            (if 21 < h.lowTotal then HandStatus.Busted else HandStatus.Stood) := by
          unfold dealer_stand
          rw [dealer_bust_check_status]
          rfl
        simp only [dealer_should_hit, Bool.or_eq_true, Bool.and_eq_true,
          decide_eq_true_eq, beq_iff_eq, not_or, not_and] at hsh
        constructor
        · intro hst
          rw [hcards, hsoft]
          exact ⟨by omega, by
            intro ⟨h17, hsf⟩
            exact (hsh.2 h17) hsf⟩
        · intro hst
          rw [hstat] at hst
          rw [hlow2]
          by_cases hbig : 21 < h.lowTotal
          · exact hbig
          · rw [if_neg hbig] at hst; exact absurd hst (by simp)
      
    · rw [if_neg (by simp [hb])]
      constructor
      · intro hst; rw [hb] at hst; exact absurd hst (by simp)
      · intro hst; exact hlow
  | cons c rest ih =>
    intro h hh
    unfold play_dealer_loop
    rcases hh with hp | ⟨hb, hlow⟩
    · rw [if_pos hp]
      by_cases hsh : dealer_should_hit h = true
      · rw [if_pos hsh]
        apply ih
        rw [dealer_bust_check_status]
        by_cases hbig : 21 < (h.add_card c).lowTotal
        · right
          constructor
          · rw [if_pos (by
              show 21 < (h.add_card c).lowTotal
              exact hbig)]
          · have : (dealer_bust_check (h.add_card c)).lowTotal =
                (h.add_card c).lowTotal := by
              unfold dealer_bust_check; split_ifs <;> rfl
            rw [this]; exact hbig
        · left
          rw [if_neg (by
            show ¬ 21 < (h.add_card c).lowTotal
            exact hbig)]
          exact hp
      · rw [if_neg hsh]
        have hcards : (dealer_stand h).final_total = h.final_total :=
          final_total_of_cards_eq _ _ (dealer_stand_cards h)
        have hsoft : (dealer_stand h).is_soft = h.is_soft :=
          is_soft_of_cards_eq _ _ (dealer_stand_cards h)
        have hlow2 : (dealer_stand h).lowTotal = h.lowTotal :=
          lowTotal_of_cards_eq _ _ (dealer_stand_cards h)
        have hstat : (dealer_stand h).status =
            (if 21 < h.lowTotal then HandStatus.Busted else HandStatus.Stood) := by
          unfold dealer_stand
          rw [dealer_bust_check_status]
          rfl
        simp only [dealer_should_hit, Bool.or_eq_true, Bool.and_eq_true,
          decide_eq_true_eq, beq_iff_eq, not_or, not_and] at hsh
        constructor
        · intro hst
          rw [hcards, hsoft]
          exact ⟨by omega, by
            intro ⟨h17, hsf⟩
            exact (hsh.2 h17) hsf⟩
        · intro hst
          rw [hstat] at hst
          rw [hlow2]
          by_cases hbig : 21 < h.lowTotal
          · exact hbig
          · rw [if_neg hbig] at hst; exact absurd hst (by simp)
    · rw [if_neg (by simp [hb])]
      constructor
      · intro hst; rw [hb] at hst; exact absurd hst (by simp)
      · intro hst; exact hlow

/-- C5: the dealer's hand is played by a fixed policy with no choices:
while `Playing`, the dealer hits exactly when the final total is strictly
below 17, or equals 17 with the hand soft; in every other case the dealer
stands; a hand whose low total exceeds 21 becomes `Busted`. Consequently a
dealer hand that ends `Stood` holds at least 17 and is not a soft 17, and
one that ends `Busted` has low total above 21. -/
theorem dealer_fixed_policy (h : Hand) (c : Card) (rest : List Card)
    (hp : h.status = .Playing) :
    (dealer_should_hit h = true ↔
      (h.final_total < 17 ∨ (h.final_total = 17 ∧ h.is_soft = true))) ∧
    (dealer_should_hit h = true →
      play_dealer_loop h (c :: rest) =
        play_dealer_loop (dealer_bust_check (h.add_card c)) rest ∧
      (dealer_bust_check (h.add_card c)).cards = h.cards ++ [c] ∧
      (21 < (h.add_card c).lowTotal →
        (dealer_bust_check (h.add_card c)).status = .Busted) ∧
      (¬ 21 < (h.add_card c).lowTotal →
        (dealer_bust_check (h.add_card c)).status = .Playing)) ∧
    (dealer_should_hit h = false →
      play_dealer_loop h (c :: rest) = (dealer_stand h, c :: rest) ∧
      (dealer_stand h).cards = h.cards ∧
      (¬ 21 < h.lowTotal → (dealer_stand h).status = .Stood)) ∧
    ((play_dealer_turn h (c :: rest)).1.status = .Stood →
      17 ≤ (play_dealer_turn h (c :: rest)).1.final_total ∧
      ¬((play_dealer_turn h (c :: rest)).1.final_total = 17 ∧
        (play_dealer_turn h (c :: rest)).1.is_soft = true)) ∧
    ((play_dealer_turn h (c :: rest)).1.status = .Busted →
      21 < (play_dealer_turn h (c :: rest)).1.lowTotal) := by
  have hpost := play_dealer_loop_post (c :: rest)
    { h with status := HandStatus.Playing } (Or.inl rfl)
  refine ⟨?_, ?_, ?_, hpost.1, hpost.2⟩
  · unfold dealer_should_hit
    simp [Bool.or_eq_true, Bool.and_eq_true, decide_eq_true_eq, beq_iff_eq]
  · intro hsh
    refine ⟨?_, ?_, ?_, ?_⟩
    · conv_lhs => rw [play_dealer_loop]
      rw [if_pos hp, if_pos hsh]
    · rw [dealer_bust_check_cards]
      rfl
    · intro hbig
      rw [dealer_bust_check_status, if_pos]
      show 21 < (h.add_card c).lowTotal
      exact hbig
    · intro hbig
      rw [dealer_bust_check_status, if_neg]
      · exact hp
      · show ¬ 21 < (h.add_card c).lowTotal
        exact hbig
  · intro hsf
    refine ⟨?_, dealer_stand_cards h, ?_⟩
    · conv_lhs => rw [play_dealer_loop]
      rw [if_pos hp, if_neg (by simp [hsf])]
    · intro hbig
      unfold dealer_stand
      rw [dealer_bust_check_status, if_neg]
      show ¬ 21 < ({ h with status := HandStatus.Stood } : Hand).lowTotal
      exact hbig

/-- C5 witness: the spec's example — Ace + Six is a soft 17 and the dealer
must hit it, not stand. -/
theorem dealer_fixed_policy_witness :
    dealer_should_hit ⟨[⟨"Ace", 1⟩, ⟨"Six", 6⟩], 0, 0, .Playing⟩ = true ∧
    play_dealer_loop ⟨[⟨"Ace", 1⟩, ⟨"Six", 6⟩], 0, 0, .Playing⟩ [⟨"Ten", 10⟩] =
      play_dealer_loop
        (dealer_bust_check
          (Hand.add_card ⟨[⟨"Ace", 1⟩, ⟨"Six", 6⟩], 0, 0, .Playing⟩ ⟨"Ten", 10⟩))
        [] := by
  have t := dealer_fixed_policy ⟨[⟨"Ace", 1⟩, ⟨"Six", 6⟩], 0, 0, .Playing⟩
    ⟨"Ten", 10⟩ [] rfl
  have hs : dealer_should_hit ⟨[⟨"Ace", 1⟩, ⟨"Six", 6⟩], 0, 0, .Playing⟩ = true :=
    t.1.mpr (Or.inr ⟨rfl, rfl⟩)
  exact ⟨hs, (t.2.1 hs).1⟩

/-- The two-valued outcome of `play_pre_turn`: `'turn over'` or
`'play turn'`. -/
inductive TurnResult where
  | turn_over
  | play_turn
deriving Repr, DecidableEq

/-- `Dealer.is_showing_ace` (`classes/player.py` lines 135-136): the
up-card (first card) is an Ace. -/
def is_showing_ace (dh : Hand) : Bool :=
  match dh.cards with
  | c :: _ => c.is_ace
  | [] => false

/-- Modelled from the spec: `Dealer.is_showing_face_card` from the missing
models module — the up-card has value 10 (`classes/player.py` line 139
tests `up_card().value == 10`). -/
def is_showing_face_card (dh : Hand) : Bool :=
  match dh.cards with
  | c :: _ => c.value = 10
  | [] => false

/-- `play_pre_turn` (`game_controller.py` lines 244-356): the pre-turn
decision tree for blackjacks, even money and insurance, as a function of
the gambler, the dealer's hand, and the gambler's two externally supplied
answers (even money, insurance). Returns the `'turn over'`/`'play turn'`
signal and the updated gambler. `Hand.payout('insurance', '2:1')` on line
301, from the missing models hand module, is modelled from the spec as the
`insurance` composite payout credited to the bankroll. -/
def play_pre_turn (g : Gambler) (dh : Hand) (even_money ins : Bool) :
    TurnResult × Gambler :=
  match g.hands with
  | [] => (.play_turn, g)
  | gh :: _ =>
    if is_showing_ace dh || is_showing_face_card dh then
      if is_showing_ace dh then
        if gh.is_blackjack then
          (if even_money then (.turn_over, g.payout (pay_out_hand gh .wager))
           else if dh.is_blackjack then
             (.turn_over, g.payout (pay_out_hand gh .push))
           else (.turn_over, g.payout (pay_out_hand gh .blackjack)))
        else
          if g.can_place_insurance_wager && ins then
            match g.buy_insurance_for_first_hand with
            | none => (.play_turn, g)
            | some g2 =>
              match g2.hands with
              | gh2 :: _ =>
                if dh.is_blackjack then
                  (.turn_over, g2.payout (pay_out_hand gh2 .insurance))
                else (.play_turn, g2)
              | [] => (.play_turn, g2)
          else
            (if dh.is_blackjack then (.turn_over, g) else (.play_turn, g))
      else
        if dh.is_blackjack then
          (if gh.is_blackjack then (.turn_over, g.payout (pay_out_hand gh .push))
           else (.turn_over, g))
        else
          (if gh.is_blackjack then
            (.turn_over, g.payout (pay_out_hand gh .blackjack))
           else (.play_turn, g))
    else
      if gh.is_blackjack then (.turn_over, g.payout (pay_out_hand gh .blackjack))
      else (.play_turn, g)

/-- C8: when the dealer's up-card is neither an Ace nor a 10-value card,
pre-turn resolution depends only on the gambler's hand: a gambler blackjack
is paid the `blackjack` payout (3:2 plus reclaim, `5/2 * wager`) and the
round is over with no hand play; otherwise nothing is credited and play
continues. -/
theorem pre_turn_no_ace_no_ten (g : Gambler) (gh : Hand) (rest : List Hand)
    (dh : Hand) (em ins : Bool) (hg : g.hands = gh :: rest)
    (hace : is_showing_ace dh = false)
    (hface : is_showing_face_card dh = false) :
    play_pre_turn g dh em ins =
      (if gh.is_blackjack then
        (TurnResult.turn_over, g.payout (5 / 2 * gh.wager))
       else (TurnResult.play_turn, g)) := by
  unfold play_pre_turn
  rw [hg]
  rw [hace, hface]
  simp only [Bool.or_self, Bool.false_eq_true, if_false]
  by_cases hbj : gh.is_blackjack = true
  · simp [hbj, pay_out_hand_blackjack_eq]
  · simp [hbj]

/-- C8 witness: the theorem at a dealt Ace + King against a dealer Five
up-card — `blackjack` pays `5/2 * 10 = 25`. -/
theorem pre_turn_no_ace_no_ten_witness :
    play_pre_turn ⟨90, 10, [⟨[⟨"Ace", 1⟩, ⟨"King", 10⟩], 10, 0, .Pending⟩]⟩
        ⟨[⟨"Five", 5⟩, ⟨"Nine", 9⟩], 0, 0, .Pending⟩ false false =
      (if (⟨[⟨"Ace", 1⟩, ⟨"King", 10⟩], 10, 0, .Pending⟩ : Hand).is_blackjack then
        (TurnResult.turn_over,
         Gambler.payout ⟨90, 10, [⟨[⟨"Ace", 1⟩, ⟨"King", 10⟩], 10, 0, .Pending⟩]⟩
           (5 / 2 * 10))
       else (TurnResult.play_turn,
         ⟨90, 10, [⟨[⟨"Ace", 1⟩, ⟨"King", 10⟩], 10, 0, .Pending⟩]⟩)) :=
  pre_turn_no_ace_no_ten ⟨90, 10, [⟨[⟨"Ace", 1⟩, ⟨"King", 10⟩], 10, 0, .Pending⟩]⟩
    ⟨[⟨"Ace", 1⟩, ⟨"King", 10⟩], 10, 0, .Pending⟩ []
    ⟨[⟨"Five", 5⟩, ⟨"Nine", 9⟩], 0, 0, .Pending⟩ false false rfl rfl rfl

/-- C9: dealer showing an Ace, gambler without blackjack, insurance
affordable and purchased: exactly half the hand's wager is debited at
purchase; if the dealer has blackjack the bankroll is then credited three
times the insurance amount (2:1 win plus reclaim), the hand wager gets no
credit, and the round is over; if the dealer lacks blackjack the insurance
is forfeited with no credit and play proceeds to the normal turn. -/
theorem pre_turn_insurance (g : Gambler) (gh : Hand) (rest : List Hand)
    (dh : Hand) (em : Bool) (hg : g.hands = gh :: rest)
    (hace : is_showing_ace dh = true) (hbj : gh.is_blackjack = false)
    (hafford : gh.wager / 2 ≤ g.bankroll) :
    (dh.is_blackjack = true →
      play_pre_turn g dh em true =
        (TurnResult.turn_over,
         { g with bankroll := g.bankroll - gh.wager / 2 + 3 * (gh.wager / 2),
                  hands := { gh with insurance := gh.wager / 2 } :: rest })) ∧
    (dh.is_blackjack = false →
      play_pre_turn g dh em true =
        (TurnResult.play_turn,
         { g with bankroll := g.bankroll - gh.wager / 2,
                  hands := { gh with insurance := gh.wager / 2 } :: rest })) := by
  have hnl : ¬ g.bankroll < gh.wager / 2 := not_lt.2 hafford
  have hafford2 : g.can_place_insurance_wager = true := by
    unfold Gambler.can_place_insurance_wager
    rw [hg]
    simp [hafford]
  have hbuy : g.buy_insurance_for_first_hand =
      some { g with bankroll := g.bankroll - gh.wager / 2, hands := { gh with insurance := gh.wager / 2 } :: rest } := by
    unfold Gambler.buy_insurance_for_first_hand Gambler.subtract_bankroll
    rw [hg]
    simp only [hnl, if_false, Option.map_some']
  have hmain : ∀ db : Bool, dh.is_blackjack = db →
      play_pre_turn g dh em true =
        (if db then
          (TurnResult.turn_over,
           { g with bankroll := g.bankroll - gh.wager / 2 + 3 * (gh.wager / 2),
                    hands := { gh with insurance := gh.wager / 2 } :: rest })
         else
          (TurnResult.play_turn,
           { g with bankroll := g.bankroll - gh.wager / 2,
                    hands := { gh with insurance := gh.wager / 2 } :: rest })) := by
    intro db hdb
    unfold play_pre_turn
    rw [hg, hace]
    simp only [Bool.true_or, if_true, hbj, Bool.false_eq_true, if_false]
    rw [hafford2]
    simp only [Bool.and_self, if_true]
    rw [hbuy]
    simp only []
    rw [hdb]
    cases db with
    | true =>
      simp only [if_true]
      have : pay_out_hand ({ gh with insurance := gh.wager / 2 } : Hand)
          .insurance = 3 * (gh.wager / 2) := by
        rw [pay_out_hand_insurance_eq]
      rw [this]
      rfl
    | false =>
      simp only [Bool.false_eq_true, if_false]
  exact ⟨fun hdb => by rw [hmain true hdb]; rfl,
         fun hdb => by rw [hmain false hdb]; rfl⟩

/-- C9 witness: wager $10, bankroll $10: insurance costs $5; against a
dealer Ace + King blackjack the bankroll ends at `10 - 5 + 15`. -/
theorem pre_turn_insurance_witness :
    (Hand.is_blackjack ⟨[⟨"Ace", 1⟩, ⟨"King", 10⟩], 0, 0, .Pending⟩ = true →
      play_pre_turn ⟨10, 10, [⟨[⟨"Seven", 7⟩, ⟨"Nine", 9⟩], 10, 0, .Pending⟩]⟩
          ⟨[⟨"Ace", 1⟩, ⟨"King", 10⟩], 0, 0, .Pending⟩ false true =
        (TurnResult.turn_over,
         { (⟨10, 10, [⟨[⟨"Seven", 7⟩, ⟨"Nine", 9⟩], 10, 0, .Pending⟩]⟩ : Gambler) with
             bankroll := (10 : ℚ) - 10 / 2 + 3 * (10 / 2),
             hands := [⟨[⟨"Seven", 7⟩, ⟨"Nine", 9⟩], 10, 10 / 2, .Pending⟩] })) ∧
    (Hand.is_blackjack ⟨[⟨"Ace", 1⟩, ⟨"King", 10⟩], 0, 0, .Pending⟩ = false →
      play_pre_turn ⟨10, 10, [⟨[⟨"Seven", 7⟩, ⟨"Nine", 9⟩], 10, 0, .Pending⟩]⟩
          ⟨[⟨"Ace", 1⟩, ⟨"King", 10⟩], 0, 0, .Pending⟩ false true =
        (TurnResult.play_turn,
         { (⟨10, 10, [⟨[⟨"Seven", 7⟩, ⟨"Nine", 9⟩], 10, 0, .Pending⟩]⟩ : Gambler) with
             bankroll := (10 : ℚ) - 10 / 2,
             hands := [⟨[⟨"Seven", 7⟩, ⟨"Nine", 9⟩], 10, 10 / 2, .Pending⟩] })) :=
  pre_turn_insurance ⟨10, 10, [⟨[⟨"Seven", 7⟩, ⟨"Nine", 9⟩], 10, 0, .Pending⟩]⟩
    ⟨[⟨"Seven", 7⟩, ⟨"Nine", 9⟩], 10, 0, .Pending⟩ []
    ⟨[⟨"Ace", 1⟩, ⟨"King", 10⟩], 0, 0, .Pending⟩ false rfl rfl rfl (by norm_num)

/-- `play_gambler_turn` line 91: the dealer's hand needs playing iff some
gambler hand finished `Doubled` or `Stood`. -/
def dealer_turn_needed (hands : List Hand) : Bool :=
  hands.any (fun h => h.status = HandStatus.Doubled || h.status = HandStatus.Stood)

/-- `play` lines 504-516: after the gambler's turn, the dealer's turn runs
only when `play_gambler_turn` returned true, and then `settle_up` always
runs against the dealer's (possibly unplayed) hand. -/
def play_round_end (g : Gambler) (dh : Hand) (shoe : List Card) :
    Gambler × Hand :=
  if dealer_turn_needed g.hands then
    (settle_up g (play_dealer_turn dh shoe).1, (play_dealer_turn dh shoe).1)
  else (settle_up g dh, dh)

/-- C10: the dealer's hand is played iff at least one gambler hand finished
`Stood` or `Doubled`; when no hand did (e.g. all `Busted` or `Blackjack`)
the dealer's hand keeps its dealt cards, and settlement still credits the
bankroll for every gambler hand either way. -/
theorem dealer_plays_iff_needed (g : Gambler) (dh : Hand)
    (shoe : List Card) :
    (dealer_turn_needed g.hands = true ↔
      ∃ h ∈ g.hands, h.status = HandStatus.Stood ∨ h.status = HandStatus.Doubled) ∧
    ((∀ h ∈ g.hands, h.status = HandStatus.Busted ∨ h.status = HandStatus.Blackjack) →
      dealer_turn_needed g.hands = false) ∧
    (dealer_turn_needed g.hands = false →
      (play_round_end g dh shoe).2 = dh ∧
      (play_round_end g dh shoe).2.cards = dh.cards ∧
      (play_round_end g dh shoe).1.bankroll =
        g.bankroll + (g.hands.map (settle_hand dh)).sum) ∧
    (dealer_turn_needed g.hands = true →
      (play_round_end g dh shoe).2 = (play_dealer_turn dh shoe).1 ∧
      (play_round_end g dh shoe).1.bankroll =
        g.bankroll +
          (g.hands.map (settle_hand (play_dealer_turn dh shoe).1)).sum) := by
  have hiff : dealer_turn_needed g.hands = true ↔
      ∃ h ∈ g.hands, h.status = HandStatus.Stood ∨ h.status = HandStatus.Doubled := by
    unfold dealer_turn_needed
    rw [List.any_eq_true]
    constructor
    · rintro ⟨h, hmem, hor⟩
      rw [Bool.or_eq_true, decide_eq_true_eq, decide_eq_true_eq] at hor
      exact ⟨h, hmem, hor.symm⟩
    · rintro ⟨h, hmem, hor⟩
      exact ⟨h, hmem, by
        rw [Bool.or_eq_true, decide_eq_true_eq, decide_eq_true_eq]
        exact hor.symm⟩
  refine ⟨hiff, ?_, ?_, ?_⟩
  · intro hall
    rw [Bool.eq_false_iff]
    intro htrue
    obtain ⟨h, hmem, hor⟩ := hiff.1 htrue
    rcases hall h hmem with hb | hb <;> rcases hor with ho | ho <;>
      rw [hb] at ho <;> exact absurd ho (by simp)
  · intro hfalse
    unfold play_round_end
    rw [hfalse]
    simp only [Bool.false_eq_true, if_false]
    exact ⟨trivial, trivial, foldl_payout_bankroll _ g.hands g⟩
  · intro htrue
    unfold play_round_end
    rw [htrue]
    simp only [if_true]
    exact ⟨trivial, foldl_payout_bankroll _ g.hands g⟩

/-- C10 witness: one busted hand and one blackjack hand — the dealer turn
is not needed, the dealer's dealt hand is untouched, and settlement still
runs over both hands. -/
theorem dealer_plays_iff_needed_witness :
    ((∀ h ∈ [(⟨[⟨"Ten", 10⟩, ⟨"Nine", 9⟩, ⟨"Five", 5⟩], 10, 0, .Busted⟩ : Hand),
             ⟨[⟨"Ace", 1⟩, ⟨"King", 10⟩], 10, 0, .Blackjack⟩],
        h.status = HandStatus.Busted ∨ h.status = HandStatus.Blackjack) →
      dealer_turn_needed
        [⟨[⟨"Ten", 10⟩, ⟨"Nine", 9⟩, ⟨"Five", 5⟩], 10, 0, .Busted⟩,
         ⟨[⟨"Ace", 1⟩, ⟨"King", 10⟩], 10, 0, .Blackjack⟩] = false) ∧
    (dealer_turn_needed
        [⟨[⟨"Ten", 10⟩, ⟨"Nine", 9⟩, ⟨"Five", 5⟩], 10, 0, .Busted⟩,
         ⟨[⟨"Ace", 1⟩, ⟨"King", 10⟩], 10, 0, .Blackjack⟩] = false →
      (play_round_end
          ⟨0, 10, [⟨[⟨"Ten", 10⟩, ⟨"Nine", 9⟩, ⟨"Five", 5⟩], 10, 0, .Busted⟩,
                   ⟨[⟨"Ace", 1⟩, ⟨"King", 10⟩], 10, 0, .Blackjack⟩]⟩
          ⟨[⟨"Six", 6⟩, ⟨"Ten", 10⟩], 0, 0, .Pending⟩ []).2 =
        ⟨[⟨"Six", 6⟩, ⟨"Ten", 10⟩], 0, 0, .Pending⟩ ∧
      (play_round_end
          ⟨0, 10, [⟨[⟨"Ten", 10⟩, ⟨"Nine", 9⟩, ⟨"Five", 5⟩], 10, 0, .Busted⟩,
                   ⟨[⟨"Ace", 1⟩, ⟨"King", 10⟩], 10, 0, .Blackjack⟩]⟩
          ⟨[⟨"Six", 6⟩, ⟨"Ten", 10⟩], 0, 0, .Pending⟩ []).2.cards =
        [⟨"Six", 6⟩, ⟨"Ten", 10⟩] ∧
      (play_round_end
          ⟨0, 10, [⟨[⟨"Ten", 10⟩, ⟨"Nine", 9⟩, ⟨"Five", 5⟩], 10, 0, .Busted⟩,
                   ⟨[⟨"Ace", 1⟩, ⟨"King", 10⟩], 10, 0, .Blackjack⟩]⟩
          ⟨[⟨"Six", 6⟩, ⟨"Ten", 10⟩], 0, 0, .Pending⟩ []).1.bankroll =
        0 + (([(⟨[⟨"Ten", 10⟩, ⟨"Nine", 9⟩, ⟨"Five", 5⟩], 10, 0, .Busted⟩ : Hand),
              ⟨[⟨"Ace", 1⟩, ⟨"King", 10⟩], 10, 0, .Blackjack⟩]).map
          (settle_hand ⟨[⟨"Six", 6⟩, ⟨"Ten", 10⟩], 0, 0, .Pending⟩)).sum) := by
  have t := dealer_plays_iff_needed
    ⟨0, 10, [⟨[⟨"Ten", 10⟩, ⟨"Nine", 9⟩, ⟨"Five", 5⟩], 10, 0, .Busted⟩,
             ⟨[⟨"Ace", 1⟩, ⟨"King", 10⟩], 10, 0, .Blackjack⟩]⟩
    ⟨[⟨"Six", 6⟩, ⟨"Ten", 10⟩], 0, 0, .Pending⟩ []
  exact ⟨t.2.1, t.2.2.1⟩
